import Mathlib

/-
Verification development for the Stylus multisig wallet template
(packages/contracts/stylus/templates/multisig/src/lib.rs).

The contract state is embedded shallowly: storage maps become association
lists with default-false lookup, storage vectors become lists, U256 becomes
Nat with explicit reduction modulo 2 ^ 256 where the code's arithmetic can
wrap, and usize becomes Nat with the wasm32 bound 2 ^ 32 at the one place
the code converts a U256 id to usize (ruint's Uint::to, which panics when
the value does not fit; a panic is a wasm trap and is modelled by a
distinguished result).  Each public method returns an explicit result
carrying the mutated state and the emitted event log; the external call
made by execute_transaction is a parameter, since its callee may reenter
the contract and transform the state arbitrarily.
-/

namespace Multisig

/-- Addresses are 160-bit identities; Address::ZERO is 0. -/
abbrev Addr := Nat

/-- Modulus of the 256-bit unsigned integers used for values and counters. -/
def U256_MOD : Nat := 2 ^ 256

/-- Modulus of usize on the wasm32 target Stylus contracts compile to. -/
def USIZE_MOD : Nat := 2 ^ 32

/-- Wrapping increment of a U256 counter (release-profile semantics). -/
def uinc (c : Nat) : Nat := (c + 1) % U256_MOD

/-- Wrapping decrement of a U256 counter (release-profile semantics). -/
def udec (c : Nat) : Nat := (c + (U256_MOD - 1)) % U256_MOD

/-- Lookup in a storage map of booleans; absent keys read as false,
mirroring StorageMap<Address, bool>. -/
def mget (m : List (Addr × Bool)) (a : Addr) : Bool :=
  match m with
  | [] => false
  | (k, v) :: rest => if k = a then v else mget rest a

/-- Write to a storage map of booleans, keeping one entry per key. -/
def mset (m : List (Addr × Bool)) (a : Addr) (b : Bool) : List (Addr × Bool) :=
  match m with
  | [] => [(a, b)]
  | (k, v) :: rest => if k = a then (k, b) :: rest else (k, v) :: mset rest a b

/-- Number of keys a storage map of booleans holds true. -/
def countTrue (m : List (Addr × Bool)) : Nat :=
  (m.filter (fun p => p.2)).length

/-- Events of the contract (the sol! block of lib.rs). -/
inductive Event where
  | ownerAdded (owner : Addr)
  | ownerRemoved (owner : Addr)
  | requirementChanged (required : Nat)
  | transactionSubmitted (txId : Nat) (submitter : Addr) (dest : Addr) (value : Nat)
  | transactionConfirmed (txId : Nat) (owner : Addr)
  | confirmationRevoked (txId : Nat) (owner : Addr)
  | transactionExecuted (txId : Nat) (executor : Addr)
  | transactionFailed (txId : Nat) (executor : Addr)
  | deposit (sender : Addr) (value : Nat)
deriving DecidableEq

/-- Error values, one per distinct byte-string message of lib.rs. -/
inductive Err where
  | alreadyInitialized
  | ownersRequired
  | invalidRequired
  | invalidOwnerAddress
  | duplicateOwner
  | invalidDestination
  | notAnOwner
  | onlyWallet
  | txDoesNotExist
  | alreadyExecuted
  | alreadyConfirmed
  | notConfirmed
  | cannotRemoveOwner
  | ownerAlreadyExists
  | invalidNewOwner
  | oldOwnerMissing
  | newOwnerExists
  | executionFailed
deriving DecidableEq

/-- One stored transaction (the Transaction sol_storage struct). -/
structure Transaction where
  destination : Addr
  value : Nat
  data : List Nat
  executed : Bool
  confirmations : List (Addr × Bool)
  confirmation_count : Nat
deriving DecidableEq

/-- The contract's storage (the MultisigWallet sol_storage struct). -/
structure MultisigWallet where
  owners : List Addr
  is_owner : List (Addr × Bool)
  required_confirmations : Nat
  transactions : List Transaction
  initialized : Bool
deriving DecidableEq

/-- The empty storage a freshly deployed contract starts from. -/
def MultisigWallet.fresh : MultisigWallet :=
  { owners := []
    is_owner := []
    required_confirmations := 0
    transactions := []
    initialized := false }

/-- Result of an internal guard or read helper: a value, an early-return
error, or a wasm trap (panic). -/
inductive Guard (α : Type) where
  | ok (a : α)
  | err (e : Err)
  | trap
deriving DecidableEq

/-- Result of a public method body: value, state and emitted events on
success, error value together with the state and events as mutated so far
on an early return, or a wasm trap. -/
inductive Res (α : Type) where
  | ok (val : α) (s : MultisigWallet) (log : List Event)
  | err (e : Err) (s : MultisigWallet) (log : List Event)
  | trap
deriving DecidableEq

/-- State an op left behind, with a fallback for the trap case. -/
def Res.stateD (r : Res α) (dflt : MultisigWallet) : MultisigWallet :=
  match r with
  | .ok _ s _ => s
  | .err _ s _ => s
  | .trap => dflt

/-- Holds when the result is a success. -/
def Res.isOk (r : Res α) : Bool :=
  match r with
  | .ok _ _ _ => true
  | _ => false

/-- Embeds get_transaction_ref / get_transaction_mut: converts the U256 id
to usize (trapping when it exceeds the word size, as ruint's Uint::to
panics there) and bound-checks it against the transactions vector. -/
def get_transaction_ref (s : MultisigWallet) (tx_id : Nat) : Guard Transaction :=
  if tx_id < USIZE_MOD then
    match s.transactions[tx_id]? with
    | some tx => .ok tx
    | none => .err .txDoesNotExist
  else .trap

/-- Replaces the stored transaction at an id known to be in range. -/
def setTx (s : MultisigWallet) (tx_id : Nat) (tx : Transaction) : MultisigWallet :=
  { s with transactions := s.transactions.set tx_id tx }

/-- Embeds require_owner. -/
def require_owner (s : MultisigWallet) (sender : Addr) : Guard Unit :=
  if mget s.is_owner sender then .ok () else .err .notAnOwner

/-- Embeds require_wallet: the caller must be the contract itself. -/
def require_wallet (sender self_addr : Addr) : Guard Unit :=
  if sender = self_addr then .ok () else .err .onlyWallet

/-- Embeds require_not_executed. -/
def require_not_executed (s : MultisigWallet) (tx_id : Nat) : Guard Unit :=
  match get_transaction_ref s tx_id with
  | .ok tx => if tx.executed then .err .alreadyExecuted else .ok ()
  | .err e => .err e
  | .trap => .trap

/-- Embeds require_confirmed: the quorum check against the threshold read
at check time. -/
def require_confirmed (s : MultisigWallet) (tx_id : Nat) : Guard Unit :=
  match get_transaction_ref s tx_id with
  | .ok tx =>
      if tx.confirmation_count < s.required_confirmations then .err .notConfirmed
      else .ok ()
  | .err e => .err e
  | .trap => .trap

/-- Embeds the private _confirm_transaction. -/
def confirm_inner (s : MultisigWallet) (sender : Addr) (tx_id : Nat) : Res Unit :=
  match require_not_executed s tx_id with
  | .err e => .err e s []
  | .trap => .trap
  | .ok _ =>
    match get_transaction_ref s tx_id with
    | .err e => .err e s []
    | .trap => .trap
    | .ok tx =>
      if mget tx.confirmations sender then .err .alreadyConfirmed s []
      else
        .ok ()
          (setTx s tx_id
            { tx with
              confirmations := mset tx.confirmations sender true
              confirmation_count := uinc tx.confirmation_count })
          [Event.transactionConfirmed tx_id sender]

/-- Embeds confirm_transaction. -/
def confirm_transaction (s : MultisigWallet) (sender : Addr) (tx_id : Nat) : Res Unit :=
  match require_owner s sender with
  | .err e => .err e s []
  | .trap => .trap
  | .ok _ => confirm_inner s sender tx_id

/-- Embeds submit_transaction. -/
def submit_transaction (s : MultisigWallet) (sender : Addr) (dest : Addr) (value : Nat)
    (data : List Nat) : Res Nat :=
  match require_owner s sender with
  | .err e => .err e s []
  | .trap => .trap
  | .ok _ =>
    if dest = 0 then .err .invalidDestination s []
    else
      let tx_id := s.transactions.length
      let s1 : MultisigWallet :=
        { s with
          transactions := s.transactions ++
            [{ destination := dest
               value := value
               data := data
               executed := false
               confirmations := []
               confirmation_count := 0 }] }
      let ev := Event.transactionSubmitted tx_id sender dest value
      match confirm_inner s1 sender tx_id with
      | .ok _ s2 log2 => .ok tx_id s2 (ev :: log2)
      | .err e s2 log2 => .err e s2 (ev :: log2)
      | .trap => .trap

/-- Embeds revoke_confirmation. -/
def revoke_confirmation (s : MultisigWallet) (sender : Addr) (tx_id : Nat) : Res Unit :=
  match require_owner s sender with
  | .err e => .err e s []
  | .trap => .trap
  | .ok _ =>
    match require_not_executed s tx_id with
    | .err e => .err e s []
    | .trap => .trap
    | .ok _ =>
      match get_transaction_ref s tx_id with
      | .err e => .err e s []
      | .trap => .trap
      | .ok tx =>
        if ! mget tx.confirmations sender then .err .notConfirmed s []
        else
          .ok ()
            (setTx s tx_id
              { tx with
                confirmations := mset tx.confirmations sender false
                confirmation_count := udec tx.confirmation_count })
            [Event.confirmationRevoked tx_id sender]

/-- Semantics of the external call performed by execute_transaction: given
the contract state at call time, the destination, the value and the call
data, it yields a success flag, the contract state when it returns (the
callee may have reentered the contract), and the events it emitted. -/
def ExtCall : Type :=
  MultisigWallet → Addr → Nat → List Nat → Bool × MultisigWallet × List Event

/-- Tail of execute_transaction from the point the external call has
returned: emit the success event, or on failure re-fetch the transaction,
clear its executed flag and emit the failure event before erroring. -/
def exec_after_call (tx_id : Nat) (sender : Addr)
    (r : Bool × MultisigWallet × List Event) : Res Unit :=
  match r with
  | (true, s2, extLog) =>
      .ok () s2 (extLog ++ [Event.transactionExecuted tx_id sender])
  | (false, s2, extLog) =>
      match get_transaction_ref s2 tx_id with
      | .err e => .err e s2 extLog
      | .trap => .trap
      | .ok tx2 =>
          .err .executionFailed
            (setTx s2 tx_id { tx2 with executed := false })
            (extLog ++ [Event.transactionFailed tx_id sender])

/-- Embeds execute_transaction, parametrised by the external call. -/
def execute_transaction (s : MultisigWallet) (sender : Addr) (tx_id : Nat)
    (ext : ExtCall) : Res Unit :=
  match require_owner s sender with
  | .err e => .err e s []
  | .trap => .trap
  | .ok _ =>
    match require_not_executed s tx_id with
    | .err e => .err e s []
    | .trap => .trap
    | .ok _ =>
      match require_confirmed s tx_id with
      | .err e => .err e s []
      | .trap => .trap
      | .ok _ =>
        match get_transaction_ref s tx_id with
        | .err e => .err e s []
        | .trap => .trap
        | .ok tx =>
          let s1 := setTx s tx_id { tx with executed := true }
          match get_transaction_ref s1 tx_id with
          | .err e => .err e s1 []
          | .trap => .trap
          | .ok tx1 => exec_after_call tx_id sender (ext s1 tx1.destination tx1.value tx1.data)

/-- Embeds get_transaction (the public view). -/
def get_transaction (s : MultisigWallet) (tx_id : Nat) :
    Guard (Addr × Nat × List Nat × Bool × Nat) :=
  match get_transaction_ref s tx_id with
  | .ok tx => .ok (tx.destination, tx.value, tx.data, tx.executed, tx.confirmation_count)
  | .err e => .err e
  | .trap => .trap

/-- Embeds get_transaction_count. -/
def get_transaction_count (s : MultisigWallet) : Nat :=
  s.transactions.length

/-- Embeds get_confirmation_count. -/
def get_confirmation_count (s : MultisigWallet) (tx_id : Nat) : Guard Nat :=
  match get_transaction_ref s tx_id with
  | .ok tx => .ok tx.confirmation_count
  | .err e => .err e
  | .trap => .trap

/-- Embeds is_confirmed_by. -/
def is_confirmed_by (s : MultisigWallet) (tx_id : Nat) (owner : Addr) : Guard Bool :=
  match get_transaction_ref s tx_id with
  | .ok tx => .ok (mget tx.confirmations owner)
  | .err e => .err e
  | .trap => .trap

/-- Embeds the owner-adding loop of the one-shot initialisation method
(the source function is MultisigWallet::initialize). -/
def init_owner_loop (s : MultisigWallet) (pending : List Addr) (log : List Event) :
    Res Unit :=
  match pending with
  | [] => .ok () s log
  | o :: rest =>
    if o = 0 then .err .invalidOwnerAddress s log
    else if mget s.is_owner o then .err .duplicateOwner s log
    else
      init_owner_loop
        { s with owners := s.owners ++ [o], is_owner := mset s.is_owner o true }
        rest
        (log ++ [Event.ownerAdded o])

/-- Embeds the one-shot initialisation method (MultisigWallet::initialize;
the name differs because the embedding avoids shadowing). -/
def init_wallet (s : MultisigWallet) (owners : List Addr) (required : Nat) : Res Unit :=
  if s.initialized then .err .alreadyInitialized s []
  else if owners.isEmpty then .err .ownersRequired s []
  else if required = 0 ∨ required > owners.length then .err .invalidRequired s []
  else
    match init_owner_loop s owners [] with
    | .ok _ s1 log =>
        .ok ()
          { s1 with required_confirmations := required, initialized := true }
          (log ++ [Event.requirementChanged required])
    | .err e s1 log => .err e s1 log
    | .trap => .trap

/-- Embeds add_owner. -/
def add_owner (s : MultisigWallet) (sender self_addr : Addr) (owner : Addr) : Res Unit :=
  match require_wallet sender self_addr with
  | .err e => .err e s []
  | .trap => .trap
  | .ok _ =>
    if owner = 0 then .err .invalidOwnerAddress s []
    else if mget s.is_owner owner then .err .ownerAlreadyExists s []
    else
      .ok ()
        { s with owners := s.owners ++ [owner], is_owner := mset s.is_owner owner true }
        [Event.ownerAdded owner]

/-- Embeds the find-swap-pop loop of remove_owner on the owner vector:
the first slot holding the owner is overwritten with the last element
(when it is not itself the last slot) and the vector is popped. -/
def swap_remove (l : List Addr) (owner : Addr) : List Addr :=
  match l.findIdx? (fun x => x = owner) with
  | none => l
  | some i =>
      if i < l.length - 1 then (l.set i (l.getD (l.length - 1) 0)).dropLast
      else l.dropLast

/-- Embeds remove_owner. -/
def remove_owner (s : MultisigWallet) (sender self_addr : Addr) (owner : Addr) : Res Unit :=
  match require_wallet sender self_addr with
  | .err e => .err e s []
  | .trap => .trap
  | .ok _ =>
    if ! mget s.is_owner owner then .err .notAnOwner s []
    else if s.owners.length ≤ s.required_confirmations then .err .cannotRemoveOwner s []
    else
      .ok ()
        { s with
          owners := swap_remove s.owners owner
          is_owner := mset s.is_owner owner false }
        [Event.ownerRemoved owner]

/-- Embeds the find-and-replace loop of replace_owner on the owner
vector: the first slot holding the old owner is overwritten. -/
def replace_in_list (l : List Addr) (old_owner new_owner : Addr) : List Addr :=
  match l.findIdx? (fun x => x = old_owner) with
  | none => l
  | some i => l.set i new_owner

/-- Embeds replace_owner. -/
def replace_owner (s : MultisigWallet) (sender self_addr : Addr)
    (old_owner new_owner : Addr) : Res Unit :=
  match require_wallet sender self_addr with
  | .err e => .err e s []
  | .trap => .trap
  | .ok _ =>
    if new_owner = 0 then .err .invalidNewOwner s []
    else if ! mget s.is_owner old_owner then .err .oldOwnerMissing s []
    else if mget s.is_owner new_owner then .err .newOwnerExists s []
    else
      .ok ()
        { s with
          owners := replace_in_list s.owners old_owner new_owner
          is_owner := mset (mset s.is_owner old_owner false) new_owner true }
        [Event.ownerRemoved old_owner, Event.ownerAdded new_owner]

/-- Embeds change_requirement. -/
def change_requirement (s : MultisigWallet) (sender self_addr : Addr)
    (required : Nat) : Res Unit :=
  match require_wallet sender self_addr with
  | .err e => .err e s []
  | .trap => .trap
  | .ok _ =>
    if required = 0 ∨ required > s.owners.length then .err .invalidRequired s []
    else
      .ok ()
        { s with required_confirmations := required }
        [Event.requirementChanged required]

/-- Embeds deposit. -/
def deposit (s : MultisigWallet) (sender : Addr) (value : Nat) : Res Unit :=
  .ok () s [Event.deposit sender value]

/-- Entry semantics of the Stylus SDK router around a public method: an
external method that returns Err makes the host revert the call, so every
storage write (and every emitted event) of the failed call is rolled back
and the caller observes the pre-call state with the error message. -/
def publicCall (r : Res α) (pre : MultisigWallet) : Res α :=
  match r with
  | .ok v s log => .ok v s log
  | .err e _ _ => .err e pre []
  | .trap => .trap

/-- Forgets the returned value of an op, keeping its state and log. -/
def Res.void : Res α → Res Unit
  | .ok _ s log => .ok () s log
  | .err e s log => .err e s log
  | .trap => .trap

/-- Holds when a guard result is a success. -/
def Guard.isOk (g : Guard α) : Bool :=
  match g with
  | .ok _ => true
  | _ => false

/-- The state-changing public entry points of the contract, with their
arguments (the caller, the contract address and the external-call
behaviour are supplied separately to runOp).  The read-only views return
no state and are not listed. -/
inductive Op where
  | opInit (owners : List Addr) (required : Nat)
  | opSubmit (dest : Addr) (value : Nat) (data : List Nat)
  | opConfirm (tx_id : Nat)
  | opRevoke (tx_id : Nat)
  | opExecute (tx_id : Nat)
  | opAddOwner (owner : Addr)
  | opRemoveOwner (owner : Addr)
  | opReplaceOwner (old_owner new_owner : Addr)
  | opChangeReq (required : Nat)
  | opDeposit (value : Nat)

/-- Dispatches one public state-changing entry point. -/
def runOp (s : MultisigWallet) (sender self_addr : Addr) (ext : ExtCall) : Op → Res Unit
  | .opInit ow r => init_wallet s ow r
  | .opSubmit d v data => (submit_transaction s sender d v data).void
  | .opConfirm i => confirm_transaction s sender i
  | .opRevoke i => revoke_confirmation s sender i
  | .opExecute i => execute_transaction s sender i ext
  | .opAddOwner o => add_owner s sender self_addr o
  | .opRemoveOwner o => remove_owner s sender self_addr o
  | .opReplaceOwner o n => replace_owner s sender self_addr o n
  | .opChangeReq r => change_requirement s sender self_addr r
  | .opDeposit v => deposit s sender v

/-- Number of addresses representable in 160 bits. -/
def ADDR_MOD : Nat := 2 ^ 160

/-- Keys of a storage map of booleans. -/
def keysOf (m : List (Addr × Bool)) : List Addr := m.map Prod.fst

/-- Well-formedness of an embedded storage map: one entry per key, and
every key is a real 160-bit address. -/
def MapWF (m : List (Addr × Bool)) : Prop :=
  (keysOf m).Nodup ∧ ∀ k ∈ keysOf m, k < ADDR_MOD

/-- Per-transaction invariant: the stored confirmation counter equals the
number of addresses whose confirmations entry is true, and the map is
well formed. -/
def TxInv (t : Transaction) : Prop :=
  t.confirmation_count = countTrue t.confirmations ∧ MapWF t.confirmations

/-- The per-transaction invariant, over every stored transaction. -/
def TxsInv (s : MultisigWallet) : Prop :=
  ∀ t ∈ s.transactions, TxInv t

/-- Set equality of the membership mapping and the owner sequence. -/
def ownerMapOk (s : MultisigWallet) : Prop :=
  ∀ a : Addr, mget s.is_owner a = true ↔ a ∈ s.owners

/-- Owner-registry invariant: the owner sequence has no duplicates and
agrees with the membership mapping as a set. -/
def OwnerInv (s : MultisigWallet) : Prop :=
  s.owners.Nodup ∧ ownerMapOk s

/-- Threshold invariant of the owner registry. -/
def ThresholdInv (s : MultisigWallet) : Prop :=
  1 ≤ s.required_confirmations ∧ s.required_confirmations ≤ s.owners.length

/-- Fallback transaction used by total read helpers. -/
def dtx : Transaction :=
  { destination := 0, value := 0, data := [], executed := false
    confirmations := [], confirmation_count := 0 }

/-- Number of current owners that have a true confirmations entry for the
given stored transaction. -/
def ownersConfirmed (s : MultisigWallet) (tx_id : Nat) : Nat :=
  (s.owners.filter (fun o => mget (s.transactions.getD tx_id dtx).confirmations o)).length

/-- External call that succeeds without touching the contract state. -/
def extOkInert : ExtCall := fun w _ _ _ => (true, w, [])

/-- External call that fails; the host discards the callee frame's
effects, so the contract state is returned as it was at call time. -/
def extFailInert : ExtCall := fun w _ _ _ => (false, w, [])

/-- Concrete wallet with owners 1, 2, 3 and threshold 2. -/
def w3 : MultisigWallet :=
  { owners := [1, 2, 3]
    is_owner := [(1, true), (2, true), (3, true)]
    required_confirmations := 2
    transactions := []
    initialized := true }

/-- Concrete pending transaction confirmed by owners 1 and 2. -/
def txA : Transaction :=
  { destination := 7, value := 5, data := [1, 2], executed := false
    confirmations := [(1, true), (2, true)], confirmation_count := 2 }

/-- Concrete wallet holding one quorate pending transaction. -/
def w3t : MultisigWallet := { w3 with transactions := [txA] }

/-- Variant of the three-owner wallet with threshold 1. -/
def w31 : MultisigWallet := { w3 with required_confirmations := 1 }

/-- Concrete pending transaction confirmed by owner 1 only. -/
def txB : Transaction :=
  { destination := 7, value := 5, data := [], executed := false
    confirmations := [(1, true)], confirmation_count := 1 }

/-- Concrete wallet holding one sub-quorum pending transaction. -/
def w3u : MultisigWallet := { w3 with transactions := [txB] }

/-- State after owner 1 submits a transaction to the threshold-1 wallet:
transaction 0 exists, auto-confirmed by owner 1 only. -/
def c2a : MultisigWallet := (submit_transaction w31 1 7 5 []).stateD .fresh

/-- State after the wallet (self-call, address 99) removes owner 1, who
had confirmed transaction 0. -/
def c2b : MultisigWallet := (remove_owner c2a 99 99 1).stateD .fresh

end Multisig

namespace Multisig

/-! Basic lemmas about the embedded storage maps and vectors. -/

theorem mget_mset_self (m : List (Addr × Bool)) (a : Addr) (b : Bool) :
    mget (mset m a b) a = b := by
  induction m with
  | nil => simp [mget, mset]
  | cons p rest ih =>
      obtain ⟨k, v⟩ := p
      by_cases h : k = a
      · simp [mget, mset, h]
      · simp [mget, mset, h, ih]

theorem mget_mset_ne (m : List (Addr × Bool)) (k a : Addr) (b : Bool) (h : k ≠ a) :
    mget (mset m k b) a = mget m a := by
  induction m with
  | nil => simp [mget, mset, h]
  | cons p rest ih =>
      obtain ⟨k', v'⟩ := p
      by_cases h' : k' = k
      · simp [mget, mset, h', h]
      · simp [mget, mset, h', ih]

theorem countTrue_cons (k : Addr) (v : Bool) (m : List (Addr × Bool)) :
    countTrue ((k, v) :: m) = (if v then 1 else 0) + countTrue m := by
  cases v
  · simp [countTrue, List.filter]
  · simp [countTrue, List.filter]
    omega

theorem countTrue_mset_true (m : List (Addr × Bool)) (a : Addr)
    (h : mget m a = false) : countTrue (mset m a true) = countTrue m + 1 := by
  induction m with
  | nil => simp [countTrue, mset]
  | cons p rest ih =>
      obtain ⟨k, v⟩ := p
      by_cases hk : k = a
      · subst hk
        simp [mget] at h
        simp [mset, countTrue_cons, h]
        omega
      · simp [mget, hk] at h
        have ih' := ih h
        simp [mset, hk, countTrue_cons, ih']
        omega

theorem countTrue_mset_false (m : List (Addr × Bool)) (a : Addr)
    (h : mget m a = true) : countTrue m = countTrue (mset m a false) + 1 := by
  induction m with
  | nil => simp [mget] at h
  | cons p rest ih =>
      obtain ⟨k, v⟩ := p
      by_cases hk : k = a
      · subst hk
        simp [mget] at h
        simp [mset, countTrue_cons, h]
        omega
      · simp [mget, hk] at h
        have ih' := ih h
        simp [mset, hk, countTrue_cons]
        omega

end Multisig

namespace Multisig

theorem set_concat (l : List α) (a b : α) :
    (l ++ [a]).set l.length b = l ++ [b] := by
  induction l with
  | nil => rfl
  | cons x xs ih => simp [List.set, ih]

theorem getElem?_concat (l : List α) (a : α) : (l ++ [a])[l.length]? = some a := by
  induction l with
  | nil => rfl
  | cons x xs ih => simp

theorem set_of_getElem? (l : List α) (i : Nat) (a : α) (h : l[i]? = some a) :
    l.set i a = l := by
  induction l generalizing i with
  | nil => simp at h
  | cons x xs ih =>
      cases i with
      | zero => simp_all
      | succ j =>
          simp at h
          simp [List.set, ih j h]

theorem mget_true_key (m : List (Addr × Bool)) (a : Addr) (h : mget m a = true) :
    a ∈ keysOf m := by
  induction m with
  | nil => simp [mget] at h
  | cons p rest ih =>
      obtain ⟨k, v⟩ := p
      by_cases hk : k = a
      · simp [keysOf, hk]
      · simp [mget, hk] at h
        simp [keysOf] at ih ⊢
        exact Or.inr (ih h)

theorem keysOf_mset (m : List (Addr × Bool)) (a : Addr) (b : Bool) :
    keysOf (mset m a b) = if a ∈ keysOf m then keysOf m else keysOf m ++ [a] := by
  induction m with
  | nil => simp [keysOf, mset]
  | cons p rest ih =>
      obtain ⟨k, v⟩ := p
      by_cases hk : k = a
      · subst hk
        simp [mset, keysOf]
      · have hne : a ≠ k := fun h => hk h.symm
        have hm : mset ((k, v) :: rest) a b = (k, v) :: mset rest a b := by
          simp [mset, hk]
        have hcons : keysOf ((k, v) :: mset rest a b) = k :: keysOf (mset rest a b) := rfl
        have hcons2 : keysOf ((k, v) :: rest) = k :: keysOf rest := rfl
        rw [hm, hcons, hcons2, ih]
        by_cases hmem : a ∈ keysOf rest
        · simp [hmem, hne]
        · simp [hmem, hne]

theorem mapWF_mset (m : List (Addr × Bool)) (a : Addr) (b : Bool)
    (h : MapWF m) (ha : a < ADDR_MOD) : MapWF (mset m a b) := by
  obtain ⟨hnd, hlt⟩ := h
  constructor
  · rw [keysOf_mset]
    by_cases hmem : a ∈ keysOf m
    · simpa [hmem] using hnd
    · simp only [hmem, if_false]
      simp [List.nodup_append, hnd, hmem]
  · intro k hk
    rw [keysOf_mset] at hk
    by_cases hmem : a ∈ keysOf m
    · exact hlt k (by simpa [hmem] using hk)
    · simp [hmem] at hk
      rcases hk with hk | hk
      · exact hlt k hk
      · simpa [hk]

theorem countTrue_le_length (m : List (Addr × Bool)) : countTrue m ≤ m.length := by
  simpa [countTrue] using List.length_filter_le (fun p => p.2) m

theorem length_le_of_mapWF (m : List (Addr × Bool)) (h : MapWF m) :
    m.length ≤ ADDR_MOD := by
  obtain ⟨hnd, hlt⟩ := h
  have hsub : keysOf m ⊆ List.range ADDR_MOD := by
    intro k hk
    exact List.mem_range.mpr (hlt k hk)
  have := (List.subperm_of_subset hnd hsub).length_le
  simpa [keysOf] using this

theorem countTrue_lt_u256 (m : List (Addr × Bool)) (h : MapWF m) :
    countTrue m + 1 < U256_MOD := by
  have h1 := countTrue_le_length m
  have h2 := length_le_of_mapWF m h
  have : (2 : Nat) ^ 160 < 2 ^ 256 - 1 := by norm_num
  simp only [U256_MOD, ADDR_MOD] at *
  omega

end Multisig

namespace Multisig

theorem uinc_eq (c : Nat) (h : c + 1 < U256_MOD) : uinc c = c + 1 :=
  Nat.mod_eq_of_lt h

theorem uinc_zero : uinc 0 = 1 := by
  norm_num [uinc, U256_MOD]

/-- C5: submit_transaction fails with the unauthorized error for a
non-owner caller and with the invalid-destination error for destination 0;
for an owner and a nonzero destination it succeeds, allocates the id equal
to the transaction count before the call, appends the action with
executed false, auto-confirmed by the submitter with confirmation count 1,
and returns that id. -/
theorem C5_submit_spec (s : MultisigWallet) (sender dest : Addr) (value : Nat)
    (data : List Nat) (hlen : s.transactions.length < USIZE_MOD) :
    (mget s.is_owner sender = false →
      submit_transaction s sender dest value data = .err .notAnOwner s []) ∧
    (mget s.is_owner sender = true → dest = 0 →
      submit_transaction s sender dest value data = .err .invalidDestination s []) ∧
    (mget s.is_owner sender = true → dest ≠ 0 →
      submit_transaction s sender dest value data =
        .ok s.transactions.length
          { s with transactions := s.transactions ++
              [{ destination := dest, value := value, data := data, executed := false,
                 confirmations := [(sender, true)], confirmation_count := 1 }] }
          [Event.transactionSubmitted s.transactions.length sender dest value,
           Event.transactionConfirmed s.transactions.length sender]) := by
  refine ⟨?_, ?_, ?_⟩
  · intro h
    simp [submit_transaction, require_owner, h]
  · intro h h0
    simp [submit_transaction, require_owner, h, h0]
  · intro h h0
    simp [submit_transaction, require_owner, h, h0, confirm_inner, require_not_executed,
      get_transaction_ref, hlen, getElem?_concat, setTx, set_concat, mget, mset, uinc_zero]

end Multisig

namespace Multisig

/-- Witness for C5 at the concrete three-owner wallet. -/
theorem C5_submit_spec_witness :
    submit_transaction w3 1 7 5 [1, 2] =
      .ok 0
        { w3 with transactions := [{ destination := 7, value := 5, data := [1, 2],
                                     executed := false, confirmations := [(1, true)],
                                     confirmation_count := 1 }] }
        [Event.transactionSubmitted 0 1 7 5, Event.transactionConfirmed 0 1] :=
  (C5_submit_spec w3 1 7 5 [1, 2] (by decide)).2.2 (by decide) (by decide)

/-- C9 counterexample: at the concrete one-transaction wallet, the lookup
with id 2 ^ 64 -- far outside [0, count) -- traps in the usize conversion
instead of returning the unknown-transaction error the claim promises. -/
theorem C9_counterexample :
    get_transaction w3t (2 ^ 64) = Guard.trap ∧
    get_transaction w3t (2 ^ 64) ≠ Guard.err Err.txDoesNotExist := by
  constructor
  · decide
  · decide

/-- C9 amended: the lookup returns the unknown-transaction error exactly
for ids that fit in the 32-bit usize of the wasm32 target but lie outside
[0, count); an id of 2 ^ 32 or more makes the usize conversion panic
(a wasm trap); ids inside [0, count) succeed. -/
theorem C9_lookup (s : MultisigWallet) (tx_id : Nat) :
    (USIZE_MOD ≤ tx_id → get_transaction s tx_id = Guard.trap) ∧
    (tx_id < USIZE_MOD → s.transactions.length ≤ tx_id →
      get_transaction s tx_id = Guard.err Err.txDoesNotExist) ∧
    (tx_id < USIZE_MOD → tx_id < s.transactions.length →
      (get_transaction s tx_id).isOk = true) := by
  refine ⟨?_, ?_, ?_⟩
  · intro h
    simp [get_transaction, get_transaction_ref, Nat.not_lt.mpr h]
  · intro h1 h2
    simp [get_transaction, get_transaction_ref, h1, List.getElem?_eq_none h2]
  · intro h1 h2
    simp [get_transaction, get_transaction_ref, h1, List.getElem?_eq_getElem h2, Guard.isOk]

/-- Witness for C9: id 5 on the one-transaction wallet is unknown. -/
theorem C9_lookup_witness :
    get_transaction w3t 5 = Guard.err Err.txDoesNotExist :=
  (C9_lookup w3t 5).2.1 (by decide) (by decide)

end Multisig

namespace Multisig

/-- C10: the quorum check execute_transaction delegates to passes exactly
when the stored confirmation count reaches the threshold read at check
time; while the count is below the threshold the check (and with it
execute_transaction) fails, and a threshold lowered by the wallet itself
to at most the stored count makes the same action pass with no new
confirmations. -/
theorem C10_quorum (s : MultisigWallet) (tx_id : Nat) (tx : Transaction)
    (htx : get_transaction_ref s tx_id = .ok tx) :
    (require_confirmed s tx_id = .ok () ↔
      s.required_confirmations ≤ tx.confirmation_count) ∧
    (tx.confirmation_count < s.required_confirmations →
      require_confirmed s tx_id = .err .notConfirmed) ∧
    (∀ sender ext, mget s.is_owner sender = true → tx.executed = false →
      tx.confirmation_count < s.required_confirmations →
      execute_transaction s sender tx_id ext = .err .notConfirmed s []) ∧
    (∀ self_addr r, r ≠ 0 → r ≤ s.owners.length → r ≤ tx.confirmation_count →
      require_confirmed ((change_requirement s self_addr self_addr r).stateD s) tx_id
        = .ok ()) := by
  refine ⟨?_, ?_, ?_, ?_⟩
  · simp [require_confirmed, htx]
  · intro h
    simp [require_confirmed, htx, h]
  · intro sender ext hown hne hlow
    simp [execute_transaction, require_owner, hown, require_not_executed, htx, hne,
      require_confirmed, hlow]
  · intro self_addr r hr0 hrlen hrc
    have hch : change_requirement s self_addr self_addr r =
        .ok () { s with required_confirmations := r } [Event.requirementChanged r] := by
      simp [change_requirement, require_wallet, hr0, Nat.not_lt.mpr hrlen]
    rw [hch]
    have htx2 : get_transaction_ref { s with required_confirmations := r } tx_id = .ok tx := htx
    simp [Res.stateD, require_confirmed, htx2, Nat.not_lt.mpr hrc]

end Multisig

namespace Multisig

/-- Witness for C10: lowering the threshold from 2 to 1 makes the
singly-confirmed transaction 0 pass the quorum check. -/
theorem C10_quorum_witness :
    require_confirmed ((change_requirement w3u 99 99 1).stateD w3u) 0 = .ok () :=
  (C10_quorum w3u 0 txB (by decide)).2.2.2 99 1 (by decide) (by decide) (by decide)

end Multisig

namespace Multisig

/-- C4: remove_owner touches only the owner registry: the transactions
vector (hence every stored action's destination, value, payload, executed
flag, confirmations and count) and the threshold survive unchanged on
every outcome; after a successful removal every stored record and every
quorum check reads exactly as before, the removed owner's membership flag
is cleared, and the removed owner can no longer revoke a confirmation
because revoke_confirmation fails its owner check. -/
theorem C4_remove_owner_frame (s : MultisigWallet) (sender self_addr owner : Addr) :
    (((remove_owner s sender self_addr owner).stateD s).transactions = s.transactions ∧
     ((remove_owner s sender self_addr owner).stateD s).required_confirmations =
       s.required_confirmations) ∧
    (∀ s1 log1, remove_owner s sender self_addr owner = .ok () s1 log1 →
      (∀ tx_id, require_confirmed s1 tx_id = require_confirmed s tx_id) ∧
      (∀ tx_id tx, get_transaction_ref s tx_id = .ok tx →
        get_transaction_ref s1 tx_id = .ok tx) ∧
      mget s1.is_owner owner = false ∧
      (∀ tx_id, revoke_confirmation s1 owner tx_id = .err .notAnOwner s1 [])) := by
  constructor
  · by_cases hw : sender = self_addr
    · by_cases ho : mget s.is_owner owner
      · by_cases hc : s.owners.length ≤ s.required_confirmations
        · simp [remove_owner, require_wallet, hw, ho, hc, Res.stateD]
        · simp [remove_owner, require_wallet, hw, ho, hc, Res.stateD]
      · simp [remove_owner, require_wallet, hw, ho, Res.stateD]
    · simp [remove_owner, require_wallet, hw, Res.stateD]
  · intro s1 log1 hok
    by_cases hw : sender = self_addr
    · by_cases ho : mget s.is_owner owner
      · by_cases hc : s.owners.length ≤ s.required_confirmations
        · simp [remove_owner, require_wallet, hw, ho, hc] at hok
        · simp [remove_owner, require_wallet, hw, ho, hc] at hok
          obtain ⟨hs1, hlog⟩ := hok
          subst hs1
          refine ⟨fun tx_id => rfl, fun tx_id tx htx => htx, mget_mset_self .., ?_⟩
          intro tx_id
          simp [revoke_confirmation, require_owner, mget_mset_self]
      · simp [remove_owner, require_wallet, hw, ho] at hok
    · simp [remove_owner, require_wallet, hw] at hok

/-- Witness for C4: removing owner 1 from the quorate wallet keeps the
stored transaction and its quorum intact while revoking owner 1's rights. -/
theorem C4_remove_owner_frame_witness :
    require_confirmed ((remove_owner w3t 99 99 1).stateD .fresh) 0 =
      require_confirmed w3t 0 ∧
    mget ((remove_owner w3t 99 99 1).stateD .fresh).is_owner 1 = false := by
  have h := (C4_remove_owner_frame w3t 99 99 1).2
    ((remove_owner w3t 99 99 1).stateD .fresh) [Event.ownerRemoved 1] (by decide)
  exact ⟨h.1 0, h.2.2.1⟩

end Multisig

namespace Multisig

theorem tx_set_executed_false (tx : Transaction) (h : tx.executed = false) :
    { tx with executed := false } = tx := by
  cases tx
  simp_all

theorem get_ref_ok_iff (s : MultisigWallet) (i : Nat) (tx : Transaction) :
    get_transaction_ref s i = .ok tx ↔ i < USIZE_MOD ∧ s.transactions[i]? = some tx := by
  unfold get_transaction_ref
  by_cases h : i < USIZE_MOD
  · rcases hcase : s.transactions[i]? with _ | t
    · simp [h, hcase]
    · simp [h, hcase]
  · simp [h]

theorem setTx_get (s : MultisigWallet) (i : Nat) (t' : Transaction)
    (hu : i < USIZE_MOD) (hlt : i < s.transactions.length) :
    get_transaction_ref (setTx s i t') i = .ok t' := by
  simp [get_transaction_ref, setTx, hu, List.getElem?_set_self, hlt]

theorem setTx_setTx (s : MultisigWallet) (i : Nat) (a b : Transaction) :
    setTx (setTx s i a) i b = setTx s i b := by
  simp [setTx, List.set_set]

theorem setTx_self (s : MultisigWallet) (i : Nat) (tx : Transaction)
    (h : s.transactions[i]? = some tx) : setTx s i tx = s := by
  cases s
  simp_all [setTx, set_of_getElem?]

theorem execute_guard_unfold (s : MultisigWallet) (sender : Addr) (tx_id : Nat)
    (tx : Transaction)
    (hown : mget s.is_owner sender = true)
    (htx : get_transaction_ref s tx_id = .ok tx)
    (hne : tx.executed = false)
    (hq : s.required_confirmations ≤ tx.confirmation_count) (ext : ExtCall) :
    execute_transaction s sender tx_id ext =
      exec_after_call tx_id sender
        (ext (setTx s tx_id { tx with executed := true })
          tx.destination tx.value tx.data) := by
  obtain ⟨hu, hsome⟩ := (get_ref_ok_iff s tx_id tx).1 htx
  have hlt : tx_id < s.transactions.length := by
    rcases List.getElem?_eq_some.1 hsome with ⟨h, _⟩
    exact h
  have hmid := setTx_get s tx_id { tx with executed := true } hu hlt
  simp [execute_transaction, require_owner, hown, require_not_executed, htx, hne,
    require_confirmed, Nat.not_lt.mpr hq, hmid]

theorem execute_already_executed (w : MultisigWallet) (sender2 : Addr) (tx_id : Nat)
    (tx2 : Transaction) (hown : mget w.is_owner sender2 = true)
    (htx : get_transaction_ref w tx_id = .ok tx2) (hex : tx2.executed = true)
    (ext : ExtCall) :
    execute_transaction w sender2 tx_id ext = .err .alreadyExecuted w [] := by
  simp [execute_transaction, require_owner, hown, require_not_executed, htx, hex]

theorem execute_ok_inert (s : MultisigWallet) (sender : Addr) (tx_id : Nat)
    (tx : Transaction)
    (hown : mget s.is_owner sender = true)
    (htx : get_transaction_ref s tx_id = .ok tx)
    (hne : tx.executed = false)
    (hq : s.required_confirmations ≤ tx.confirmation_count) :
    execute_transaction s sender tx_id extOkInert =
      .ok () (setTx s tx_id { tx with executed := true })
        [Event.transactionExecuted tx_id sender] := by
  rw [execute_guard_unfold s sender tx_id tx hown htx hne hq extOkInert]
  simp [extOkInert, exec_after_call]

end Multisig

namespace Multisig

/-- C1: execute_transaction flips the stored executed flag to true
strictly before invoking the external call: once the guards pass, the
whole result is the post-processing of the external call applied to the
marked state, in which the stored action reads executed = true; any call
on an id whose stored action reads executed = true -- in particular a
reentrant call from inside the external call, or an immediately
subsequent call -- is rejected with the already-executed error by any
owner, so a successful execution followed by a second call performs the
external effect at most once. -/
theorem C1_mark_before_call (s : MultisigWallet) (sender : Addr) (tx_id : Nat)
    (tx : Transaction)
    (hown : mget s.is_owner sender = true)
    (htx : get_transaction_ref s tx_id = .ok tx)
    (hne : tx.executed = false)
    (hq : s.required_confirmations ≤ tx.confirmation_count) :
    (∀ ext : ExtCall, execute_transaction s sender tx_id ext =
      exec_after_call tx_id sender
        (ext (setTx s tx_id { tx with executed := true })
          tx.destination tx.value tx.data)) ∧
    (get_transaction_ref (setTx s tx_id { tx with executed := true }) tx_id =
      .ok { tx with executed := true }) ∧
    (∀ w sender2 tx2 (ext2 : ExtCall), mget w.is_owner sender2 = true →
      get_transaction_ref w tx_id = .ok tx2 → tx2.executed = true →
      execute_transaction w sender2 tx_id ext2 = .err .alreadyExecuted w []) ∧
    (∀ sender2 ext2, mget s.is_owner sender2 = true →
      execute_transaction (setTx s tx_id { tx with executed := true }) sender2 tx_id ext2 =
        .err .alreadyExecuted (setTx s tx_id { tx with executed := true }) []) ∧
    (execute_transaction s sender tx_id extOkInert =
      .ok () (setTx s tx_id { tx with executed := true })
        [Event.transactionExecuted tx_id sender]) := by
  obtain ⟨hu, hsome⟩ := (get_ref_ok_iff s tx_id tx).1 htx
  have hlt : tx_id < s.transactions.length := by
    rcases List.getElem?_eq_some.1 hsome with ⟨h, _⟩
    exact h
  have hmid := setTx_get s tx_id { tx with executed := true } hu hlt
  refine ⟨fun ext => execute_guard_unfold s sender tx_id tx hown htx hne hq ext,
    hmid,
    fun w sender2 tx2 ext2 h1 h2 h3 =>
      execute_already_executed w sender2 tx_id tx2 h1 h2 h3 ext2,
    fun sender2 ext2 h1 =>
      execute_already_executed (setTx s tx_id { tx with executed := true }) sender2 tx_id
        { tx with executed := true } h1 hmid rfl ext2,
    execute_ok_inert s sender tx_id tx hown htx hne hq⟩

/-- Witness for C1: executing the quorate action 0 with an inert
succeeding external call marks it executed, and the immediate second call
by owner 2 is rejected with the already-executed error. -/
theorem C1_mark_before_call_witness :
    execute_transaction w3t 3 0 extOkInert =
      .ok () (setTx w3t 0 { txA with executed := true })
        [Event.transactionExecuted 0 3] ∧
    execute_transaction (setTx w3t 0 { txA with executed := true }) 2 0 extOkInert =
      .err .alreadyExecuted (setTx w3t 0 { txA with executed := true }) [] := by
  have h := C1_mark_before_call w3t 3 0 txA (by decide) (by decide) (by decide) (by decide)
  exact ⟨h.2.2.2.2, h.2.2.2.1 2 extOkInert (by decide)⟩

/-- C3: when the guards pass and the external call fails while leaving
the contract state exactly as it received it (its own frame reverts), the
engine clears the executed flag again -- the final state is the pre-call
state -- appends the execution-failed event and returns the
execution-failed error; a subsequent call on that unchanged state with a
succeeding external call then executes the action. -/
theorem C3_failure_reset (s : MultisigWallet) (sender : Addr) (tx_id : Nat)
    (tx : Transaction) (ext : ExtCall) (elog : List Event)
    (hown : mget s.is_owner sender = true)
    (htx : get_transaction_ref s tx_id = .ok tx)
    (hne : tx.executed = false)
    (hq : s.required_confirmations ≤ tx.confirmation_count)
    (hfail : ext (setTx s tx_id { tx with executed := true })
        tx.destination tx.value tx.data =
      (false, setTx s tx_id { tx with executed := true }, elog)) :
    execute_transaction s sender tx_id ext =
      .err .executionFailed s (elog ++ [Event.transactionFailed tx_id sender]) ∧
    execute_transaction s sender tx_id extOkInert =
      .ok () (setTx s tx_id { tx with executed := true })
        [Event.transactionExecuted tx_id sender] := by
  obtain ⟨hu, hsome⟩ := (get_ref_ok_iff s tx_id tx).1 htx
  have hlt : tx_id < s.transactions.length := by
    rcases List.getElem?_eq_some.1 hsome with ⟨h, _⟩
    exact h
  have hmid := setTx_get s tx_id { tx with executed := true } hu hlt
  constructor
  · rw [execute_guard_unfold s sender tx_id tx hown htx hne hq ext, hfail]
    have hfix : setTx (setTx s tx_id { tx with executed := true }) tx_id
        { { tx with executed := true } with executed := false } = s := by
      rw [setTx_setTx]
      have h1 : ({ { tx with executed := true } with executed := false } : Transaction)
          = tx := by
        cases tx
        simp_all
      rw [h1]
      exact setTx_self s tx_id tx hsome
    simp only [exec_after_call, hmid, hfix]
  · exact execute_ok_inert s sender tx_id tx hown htx hne hq

/-- Witness for C3: a failing inert external call on the quorate action 0
leaves the wallet exactly as before and reports the failure. -/
theorem C3_failure_reset_witness :
    execute_transaction w3t 3 0 extFailInert =
      .err .executionFailed w3t [Event.transactionFailed 0 3] := by
  have h := C3_failure_reset w3t 3 0 txA extFailInert [] (by decide) (by decide)
    (by decide) (by decide) rfl
  exact h.1

end Multisig

namespace Multisig

theorem swap_remove_length (l : List Addr) (o : Addr) :
    (swap_remove l o).length = l.length ∨ (swap_remove l o).length = l.length - 1 := by
  unfold swap_remove
  cases h : l.findIdx? (fun x => x = o) with
  | none => exact Or.inl rfl
  | some i =>
      right
      by_cases hi : i < l.length - 1
      · simp [hi]
      · simp [hi]

theorem replace_in_list_length (l : List Addr) (o n : Addr) :
    (replace_in_list l o n).length = l.length := by
  unfold replace_in_list
  cases h : l.findIdx? (fun x => x = o) with
  | none => rfl
  | some i => simp

theorem init_owner_loop_ok (pending : List Addr) (s : MultisigWallet)
    (log : List Event) (s1 : MultisigWallet) (log1 : List Event)
    (h : init_owner_loop s pending log = .ok () s1 log1) :
    s1.owners.length = s.owners.length + pending.length ∧
    s1.required_confirmations = s.required_confirmations ∧
    s1.transactions = s.transactions ∧
    s1.initialized = s.initialized := by
  induction pending generalizing s log with
  | nil =>
      simp [init_owner_loop] at h
      obtain ⟨hs, _⟩ := h
      subst hs
      simp
  | cons o rest ih =>
      by_cases h0 : o = 0
      · simp [init_owner_loop, h0] at h
      · by_cases hdup : mget s.is_owner o
        · simp [init_owner_loop, h0, hdup] at h
        · simp only [init_owner_loop, h0, if_false, hdup, Bool.false_eq_true] at h
          have := ih _ _ h
          simp at this
          simp only [List.length_cons]
          obtain ⟨h1, h2, h3, h4⟩ := this
          exact ⟨by omega, h2, h3, h4⟩

end Multisig

namespace Multisig

/-- C6: every successful mutation of the owner registry or threshold
leaves 1 <= threshold <= |owners|: initialisation establishes it, and
add_owner, remove_owner, replace_owner and change_requirement preserve
it; moreover remove_owner rejects a removal that would drop the owner
count below the threshold, and change_requirement rejects a zero
threshold or one exceeding the owner count. -/
theorem C6_threshold_inv (s : MultisigWallet) (sender self_addr : Addr) :
    (∀ ow r s1 log1, init_wallet s ow r = .ok () s1 log1 → ThresholdInv s1) ∧
    (∀ o s1 log1, ThresholdInv s → add_owner s sender self_addr o = .ok () s1 log1 →
      ThresholdInv s1) ∧
    (∀ o s1 log1, ThresholdInv s → remove_owner s sender self_addr o = .ok () s1 log1 →
      ThresholdInv s1) ∧
    (∀ o n s1 log1, ThresholdInv s → replace_owner s sender self_addr o n = .ok () s1 log1 →
      ThresholdInv s1) ∧
    (∀ r s1 log1, change_requirement s sender self_addr r = .ok () s1 log1 →
      ThresholdInv s1) ∧
    (∀ o, sender = self_addr → mget s.is_owner o = true →
      s.owners.length ≤ s.required_confirmations →
      remove_owner s sender self_addr o = .err .cannotRemoveOwner s []) ∧
    (∀ r, sender = self_addr → (r = 0 ∨ s.owners.length < r) →
      change_requirement s sender self_addr r = .err .invalidRequired s []) := by
  refine ⟨?_, ?_, ?_, ?_, ?_, ?_, ?_⟩
  · intro ow r s1 log1 h
    by_cases hi : s.initialized
    · simp [init_wallet, hi] at h
    · by_cases he : ow.isEmpty
      · simp [init_wallet, hi, he] at h
      · by_cases hr : r = 0 ∨ r > ow.length
        · simp [init_wallet, hi, he, hr] at h
        · simp only [init_wallet, hi, if_false, he, hr, Bool.false_eq_true] at h
          rcases hloop : init_owner_loop s ow [] with _ | ⟨e, s2, log2⟩ | _
          · rw [hloop] at h
            simp at h
            obtain ⟨hs1, _⟩ := h
            have hlen := init_owner_loop_ok ow s [] _ _ hloop
            subst hs1
            push_neg at hr
            have h1 := hlen.1
            have h2 := hr.2
            have h0 := Nat.one_le_iff_ne_zero.mpr hr.1
            simp only [ThresholdInv]
            constructor
            · exact h0
            · omega
          · rw [hloop] at h
            simp at h
          · rw [hloop] at h
            simp at h
  · intro o s1 log1 hinv h
    by_cases hw : sender = self_addr
    · by_cases h0 : o = 0
      · simp [add_owner, require_wallet, hw, h0] at h
      · by_cases hdup : mget s.is_owner o
        · simp [add_owner, require_wallet, hw, h0, hdup] at h
        · simp [add_owner, require_wallet, hw, h0, hdup] at h
          obtain ⟨hs1, _⟩ := h
          subst hs1
          obtain ⟨h1, h2⟩ := hinv
          exact ⟨h1, by simp; omega⟩
    · simp [add_owner, require_wallet, hw] at h
  · intro o s1 log1 hinv h
    by_cases hw : sender = self_addr
    · by_cases ho : mget s.is_owner o
      · by_cases hc : s.owners.length ≤ s.required_confirmations
        · simp [remove_owner, require_wallet, hw, ho, hc] at h
        · simp [remove_owner, require_wallet, hw, ho, hc] at h
          obtain ⟨hs1, _⟩ := h
          subst hs1
          obtain ⟨h1, h2⟩ := hinv
          refine ⟨h1, ?_⟩
          have := swap_remove_length s.owners o
          simp only [ThresholdInv]
          rcases this with hl | hl <;> simp [hl] <;> omega
      · simp [remove_owner, require_wallet, hw, ho] at h
    · simp [remove_owner, require_wallet, hw] at h
  · intro o n s1 log1 hinv h
    by_cases hw : sender = self_addr
    · by_cases h0 : n = 0
      · simp [replace_owner, require_wallet, hw, h0] at h
      · by_cases hold : mget s.is_owner o
        · by_cases hnew : mget s.is_owner n
          · simp [replace_owner, require_wallet, hw, h0, hold, hnew] at h
          · simp [replace_owner, require_wallet, hw, h0, hold, hnew] at h
            obtain ⟨hs1, _⟩ := h
            subst hs1
            obtain ⟨h1, h2⟩ := hinv
            exact ⟨h1, by simpa [replace_in_list_length] using h2⟩
        · simp [replace_owner, require_wallet, hw, h0, hold] at h
    · simp [replace_owner, require_wallet, hw] at h
  · intro r s1 log1 h
    by_cases hw : sender = self_addr
    · by_cases hr : r = 0 ∨ r > s.owners.length
      · simp [change_requirement, require_wallet, hw, hr] at h
      · simp [change_requirement, require_wallet, hw, hr] at h
        obtain ⟨hs1, _⟩ := h
        subst hs1
        push_neg at hr
        exact ⟨Nat.one_le_iff_ne_zero.mpr hr.1, by simpa using hr.2⟩
    · simp [change_requirement, require_wallet, hw] at h
  · intro o hw ho hc
    simp [remove_owner, require_wallet, hw, ho, hc]
  · intro r hw hr
    simp [change_requirement, require_wallet, hw, hr]

end Multisig

namespace Multisig

/-- Witness for C6: removing owner 1 from the three-owner threshold-2
wallet keeps the threshold invariant. -/
theorem C6_threshold_inv_witness :
    ThresholdInv ((remove_owner w3 99 99 1).stateD .fresh) :=
  (C6_threshold_inv w3 99 99).2.2.1 1 ((remove_owner w3 99 99 1).stateD .fresh)
    [Event.ownerRemoved 1] ⟨by decide, by decide⟩ (by decide)

end Multisig

namespace Multisig

theorem swap_remove_head_singleton (o : Addr) : swap_remove [o] o = [] := by
  unfold swap_remove
  rw [List.findIdx?_cons]
  simp

theorem swap_remove_head (o y : Addr) (t2 : List Addr) :
    swap_remove (o :: y :: t2) o =
      (y :: t2).getD t2.length 0 :: (y :: t2).dropLast := by
  unfold swap_remove
  rw [List.findIdx?_cons]
  simp only [decide_True, if_true]
  have hlen : (o :: y :: t2).length - 1 = t2.length + 1 := by simp
  have hcond : 0 < (o :: y :: t2).length - 1 := by simp
  rw [if_pos hcond]
  have hgetD : (o :: y :: t2).getD ((o :: y :: t2).length - 1) 0 =
      (y :: t2).getD t2.length 0 := by
    rw [hlen]
    rfl
  rw [hgetD]
  have hset : (o :: y :: t2).set 0 ((y :: t2).getD t2.length 0) =
      (y :: t2).getD t2.length 0 :: y :: t2 := rfl
  rw [hset]
  exact List.dropLast_cons_of_ne_nil (by simp)

theorem swap_remove_cons (h o : Addr) (t : List Addr) (hho : h ≠ o) (hne : t ≠ []) :
    swap_remove (h :: t) o = h :: swap_remove t o := by
  obtain ⟨y, t2, rfl⟩ : ∃ y t2, t = y :: t2 := by
    cases t with
    | nil => simp at hne
    | cons y t2 => exact ⟨y, t2, rfl⟩
  unfold swap_remove
  rw [List.findIdx?_cons]
  have hdec : decide (h = o) = false := by simp [hho]
  simp only [hdec, Bool.false_eq_true, if_false]
  rw [List.findIdx?_succ]
  cases hfi : (y :: t2).findIdx? (fun x => x = o) with
  | none => simp
  | some j =>
      simp only [Option.map_some']
      have hlen1 : (h :: y :: t2).length - 1 = t2.length + 1 := by simp
      have hlen2 : (y :: t2).length - 1 = t2.length := by simp
      rw [hlen1, hlen2]
      have hgetD : (h :: y :: t2).getD (t2.length + 1) 0 =
          (y :: t2).getD t2.length 0 := rfl
      by_cases hj : j < t2.length
      · rw [if_pos (by omega), if_pos hj]
        rw [hgetD]
        have hset : (h :: y :: t2).set (j + 1) ((y :: t2).getD t2.length 0) =
            h :: (y :: t2).set j ((y :: t2).getD t2.length 0) := rfl
        rw [hset]
        exact List.dropLast_cons_of_ne_nil (by simp)
      · rw [if_neg (by omega), if_neg (by omega)]
        exact List.dropLast_cons_of_ne_nil (by simp)

theorem getD_last_eq (y : Addr) (t2 : List Addr) :
    (y :: t2).getD t2.length 0 = (y :: t2).getLast (by simp) := by
  have hlt : t2.length < (y :: t2).length := by simp
  rw [List.getLast_eq_getElem]
  simp [List.getD, List.getElem?_eq_getElem hlt]

theorem swap_remove_perm (l : List Addr) (o : Addr) (hmem : o ∈ l) (hnd : l.Nodup) :
    (swap_remove l o).Perm (l.erase o) := by
  induction l with
  | nil => simp at hmem
  | cons h t ih =>
      by_cases ho : h = o
      · subst ho
        rw [List.erase_cons_head]
        cases t with
        | nil => rw [swap_remove_head_singleton]
        | cons y t2 =>
            rw [swap_remove_head, getD_last_eq]
            have hsplit := List.dropLast_append_getLast (l := y :: t2) (by simp)
            calc ((y :: t2).getLast (by simp) :: (y :: t2).dropLast).Perm
                  ((y :: t2).dropLast ++ [(y :: t2).getLast (by simp)]) :=
                    (List.perm_append_singleton _ _).symm
              _ = y :: t2 := hsplit
      · have hot : o ∈ t := by
          rcases List.mem_cons.1 hmem with h1 | h1
          · exact absurd h1.symm ho
          · exact h1
        have hne : t ≠ [] := by
          intro hnil
          rw [hnil] at hot
          simp at hot
        rw [swap_remove_cons h o t ho hne]
        rw [List.erase_cons_tail]
        · exact (ih hot hnd.of_cons).cons h
        · simp [ho]

end Multisig

namespace Multisig

theorem replace_in_list_head (o n : Addr) (t : List Addr) :
    replace_in_list (o :: t) o n = n :: t := by
  unfold replace_in_list
  rw [List.findIdx?_cons]
  simp

theorem replace_in_list_cons (h o n : Addr) (t : List Addr) (hho : h ≠ o) :
    replace_in_list (h :: t) o n = h :: replace_in_list t o n := by
  unfold replace_in_list
  have hdec : decide (h = o) = false := by simp [hho]
  rw [List.findIdx?_cons]
  simp only [hdec, Bool.false_eq_true, if_false]
  rw [List.findIdx?_succ]
  cases hfi : t.findIdx? (fun x => x = o) with
  | none => simp
  | some j => simp

theorem replace_in_list_perm (l : List Addr) (o n : Addr) (hmem : o ∈ l) :
    (replace_in_list l o n).Perm (n :: l.erase o) := by
  induction l with
  | nil => simp at hmem
  | cons h t ih =>
      by_cases ho : h = o
      · subst ho
        rw [replace_in_list_head, List.erase_cons_head]
      · have hot : o ∈ t := by
          rcases List.mem_cons.1 hmem with h1 | h1
          · exact absurd h1.symm ho
          · exact h1
        rw [replace_in_list_cons h o n t ho, List.erase_cons_tail (by simp [ho])]
        exact ((ih hot).cons h).trans (List.Perm.swap n h (t.erase o))

theorem ownerInv_transport (s s' : MultisigWallet) (hinv : OwnerInv s)
    (ho : s'.owners = s.owners) (hio : s'.is_owner = s.is_owner) : OwnerInv s' := by
  obtain ⟨h1, h2⟩ := hinv
  refine ⟨ho ▸ h1, fun a => ?_⟩
  rw [ho, hio]
  exact h2 a

theorem ownerInv_push (s : MultisigWallet) (o : Addr)
    (hdup : mget s.is_owner o = false) (hinv : OwnerInv s) :
    OwnerInv { s with owners := s.owners ++ [o], is_owner := mset s.is_owner o true } := by
  obtain ⟨hnd, hok⟩ := hinv
  have hno : o ∉ s.owners := fun hmem => by simp [(hok o).2 hmem] at hdup
  constructor
  · simp [List.nodup_append, hnd, hno]
  · intro a
    by_cases ha : a = o
    · subst ha
      simp [mget_mset_self]
    · rw [show ({ s with owners := s.owners ++ [o], is_owner := mset s.is_owner o true } : MultisigWallet).is_owner = mset s.is_owner o true from rfl]
      rw [mget_mset_ne s.is_owner o a true (fun h => ha h.symm)]
      simp only [List.mem_append, List.mem_singleton, ha, or_false]
      exact hok a

theorem ownerInv_remove (s : MultisigWallet) (o : Addr)
    (hmem : mget s.is_owner o = true) (hinv : OwnerInv s) :
    OwnerInv { s with owners := swap_remove s.owners o, is_owner := mset s.is_owner o false } := by
  obtain ⟨hnd, hok⟩ := hinv
  have ho : o ∈ s.owners := (hok o).1 hmem
  have hperm := swap_remove_perm s.owners o ho hnd
  constructor
  · exact hperm.symm.nodup (hnd.erase o)
  · intro a
    have hmem_iff : a ∈ swap_remove s.owners o ↔ a ≠ o ∧ a ∈ s.owners := by
      rw [hperm.mem_iff]
      exact hnd.mem_erase_iff
    by_cases ha : a = o
    · subst ha
      simp [mget_mset_self, hmem_iff]
    · rw [show ({ s with owners := swap_remove s.owners o, is_owner := mset s.is_owner o false } : MultisigWallet).is_owner = mset s.is_owner o false from rfl]
      rw [mget_mset_ne s.is_owner o a false (fun h => ha h.symm)]
      rw [show ({ s with owners := swap_remove s.owners o, is_owner := mset s.is_owner o false } : MultisigWallet).owners = swap_remove s.owners o from rfl]
      rw [hmem_iff]
      simp only [ha, ne_eq, not_false_iff, true_and]
      exact hok a

theorem ownerInv_replace (s : MultisigWallet) (o n : Addr)
    (hold : mget s.is_owner o = true) (hnew : mget s.is_owner n = false)
    (hinv : OwnerInv s) :
    OwnerInv { s with owners := replace_in_list s.owners o n, is_owner := mset (mset s.is_owner o false) n true } := by
  obtain ⟨hnd, hok⟩ := hinv
  have ho : o ∈ s.owners := (hok o).1 hold
  have hn : n ∉ s.owners := fun hmem => by simp [(hok n).2 hmem] at hnew
  have hon : o ≠ n := fun h => by
    rw [h] at hold
    rw [hold] at hnew
    cases hnew
  have hperm := replace_in_list_perm s.owners o n ho
  have hmem_iff : ∀ a, a ∈ replace_in_list s.owners o n ↔
      a = n ∨ (a ≠ o ∧ a ∈ s.owners) := by
    intro a
    rw [hperm.mem_iff]
    simp only [List.mem_cons, hnd.mem_erase_iff]
  constructor
  · refine hperm.symm.nodup (List.nodup_cons.2 ⟨?_, hnd.erase o⟩)
    intro hmem
    exact hn (hnd.mem_erase_iff.1 hmem).2
  · intro a
    rw [show ({ s with owners := replace_in_list s.owners o n, is_owner := mset (mset s.is_owner o false) n true } : MultisigWallet).is_owner = mset (mset s.is_owner o false) n true from rfl]
    rw [show ({ s with owners := replace_in_list s.owners o n, is_owner := mset (mset s.is_owner o false) n true } : MultisigWallet).owners = replace_in_list s.owners o n from rfl]
    rw [hmem_iff a]
    by_cases han : a = n
    · subst han
      simp [mget_mset_self]
    · rw [mget_mset_ne _ n a true (fun h => han h.symm)]
      by_cases hao : a = o
      · subst hao
        simp only [mget_mset_self]
        constructor
        · intro h
          cases h
        · intro h
          rcases h with h | h
          · exact absurd h han
          · exact absurd rfl h.1
      · rw [mget_mset_ne _ o a false (fun h => hao h.symm)]
        simp only [han, false_or, hao, ne_eq, not_false_iff, true_and]
        exact hok a

end Multisig

namespace Multisig

theorem void_stateD (r : Res α) (d : MultisigWallet) : (r.void).stateD d = r.stateD d := by
  cases r <;> rfl

theorem mget_true_pair (m : List (Addr × Bool)) (a : Addr) (h : mget m a = true) :
    (a, true) ∈ m := by
  induction m with
  | nil => simp [mget] at h
  | cons p rest ih =>
      obtain ⟨k, v⟩ := p
      by_cases hk : k = a
      · subst hk
        simp [mget] at h
        simp [h]
      · simp [mget, hk] at h
        simp [ih h]

theorem ownerMapOk_of_lists (s : MultisigWallet)
    (h1 : ∀ a ∈ s.owners, mget s.is_owner a = true)
    (h2 : ∀ p ∈ s.is_owner, p.2 = true → p.1 ∈ s.owners) : ownerMapOk s := by
  intro a
  constructor
  · intro hmg
    exact h2 (a, true) (mget_true_pair s.is_owner a hmg) rfl
  · exact fun h => h1 a h

theorem confirm_inner_frame (s : MultisigWallet) (sender : Addr) (i : Nat) :
    ((confirm_inner s sender i).stateD s).owners = s.owners ∧
    ((confirm_inner s sender i).stateD s).is_owner = s.is_owner ∧
    ((confirm_inner s sender i).stateD s).required_confirmations =
      s.required_confirmations := by
  unfold confirm_inner
  repeat' split
  all_goals simp [Res.stateD, setTx]

theorem confirm_frame (s : MultisigWallet) (sender : Addr) (i : Nat) :
    ((confirm_transaction s sender i).stateD s).owners = s.owners ∧
    ((confirm_transaction s sender i).stateD s).is_owner = s.is_owner ∧
    ((confirm_transaction s sender i).stateD s).required_confirmations =
      s.required_confirmations := by
  unfold confirm_transaction
  split
  · simp [Res.stateD]
  · simp [Res.stateD]
  · exact confirm_inner_frame s sender i

theorem revoke_frame (s : MultisigWallet) (sender : Addr) (i : Nat) :
    ((revoke_confirmation s sender i).stateD s).owners = s.owners ∧
    ((revoke_confirmation s sender i).stateD s).is_owner = s.is_owner ∧
    ((revoke_confirmation s sender i).stateD s).required_confirmations =
      s.required_confirmations := by
  unfold revoke_confirmation
  repeat' split
  all_goals simp [Res.stateD, setTx]

theorem submit_frame (s : MultisigWallet) (sender dest : Addr) (v : Nat) (data : List Nat) :
    ((submit_transaction s sender dest v data).stateD s).owners = s.owners ∧
    ((submit_transaction s sender dest v data).stateD s).is_owner = s.is_owner ∧
    ((submit_transaction s sender dest v data).stateD s).required_confirmations =
      s.required_confirmations := by
  unfold submit_transaction
  split
  · simp [Res.stateD]
  · simp [Res.stateD]
  · split
    · simp [Res.stateD]
    · rcases hc : confirm_inner
        { s with transactions := s.transactions ++
            [{ destination := dest, value := v, data := data, executed := false,
               confirmations := [], confirmation_count := 0 }] }
        sender s.transactions.length with ⟨val, s2, l2⟩ | ⟨e, s2, l2⟩ | _
      · have hf := confirm_inner_frame
          { s with transactions := s.transactions ++
              [{ destination := dest, value := v, data := data, executed := false,
                 confirmations := [], confirmation_count := 0 }] }
          sender s.transactions.length
        rw [hc] at hf
        simp only [hc]
        simpa [Res.stateD] using hf
      · have hf := confirm_inner_frame
          { s with transactions := s.transactions ++
              [{ destination := dest, value := v, data := data, executed := false,
                 confirmations := [], confirmation_count := 0 }] }
          sender s.transactions.length
        rw [hc] at hf
        simp only [hc]
        simpa [Res.stateD] using hf
      · simp [hc, Res.stateD]

theorem change_requirement_frame (s : MultisigWallet) (sender self_addr : Addr) (r : Nat) :
    ((change_requirement s sender self_addr r).stateD s).owners = s.owners ∧
    ((change_requirement s sender self_addr r).stateD s).is_owner = s.is_owner := by
  unfold change_requirement
  repeat' split
  all_goals simp [Res.stateD]

theorem init_loop_ownerInv (pending : List Addr) (s : MultisigWallet) (log : List Event)
    (dflt : MultisigWallet) (hinv : OwnerInv s) :
    OwnerInv ((init_owner_loop s pending log).stateD dflt) := by
  induction pending generalizing s log with
  | nil => simpa [init_owner_loop, Res.stateD] using hinv
  | cons o rest ih =>
      by_cases h0 : o = 0
      · simpa [init_owner_loop, h0, Res.stateD] using hinv
      · by_cases hdup : mget s.is_owner o = true
        · simpa [init_owner_loop, h0, hdup, Res.stateD] using hinv
        · simp only [init_owner_loop, h0, if_false, hdup, Bool.false_eq_true]
          exact ih _ (log ++ [Event.ownerAdded o])
            (ownerInv_push s o (by simpa using hdup) hinv)

end Multisig

namespace Multisig

/-- C7: the owner sequence stays duplicate-free and agrees with the
membership mapping as a set across every public state-changing entry
point, including the swap-with-last-then-shrink removal and the in-place
substitution of replace_owner; the external call of execute_transaction
is assumed to preserve the invariant (it can reenter the contract, whose
operations all preserve it). -/
theorem C7_owner_registry (s : MultisigWallet) (sender self_addr : Addr)
    (ext : ExtCall) (op : Op) (hinv : OwnerInv s)
    (hext : ∀ w d v p, OwnerInv w → OwnerInv (ext w d v p).2.1) :
    OwnerInv ((runOp s sender self_addr ext op).stateD s) := by
  cases op with
  | opInit ow r =>
      simp only [runOp]
      unfold init_wallet
      by_cases hi : s.initialized = true
      · simpa [hi, Res.stateD] using hinv
      · by_cases he : ow.isEmpty = true
        · simpa [hi, he, Res.stateD] using hinv
        · by_cases hr : r = 0 ∨ r > ow.length
          · simpa [hi, he, hr, Res.stateD] using hinv
          · simp only [hi, he, hr, if_false, Bool.false_eq_true]
            have hloopinv := init_loop_ownerInv ow s [] s hinv
            rcases hloop : init_owner_loop s ow [] with ⟨v, s2, l2⟩ | ⟨e, s2, l2⟩ | _
            · rw [hloop] at hloopinv
              simp only [Res.stateD] at hloopinv ⊢
              exact ownerInv_transport s2 _ hloopinv rfl rfl
            · rw [hloop] at hloopinv
              simpa [Res.stateD] using hloopinv
            · simpa [hloop, Res.stateD] using hinv
  | opSubmit d v data =>
      simp only [runOp]
      rw [void_stateD]
      have hf := submit_frame s sender d v data
      exact ownerInv_transport s _ hinv hf.1 hf.2.1
  | opConfirm i =>
      simp only [runOp]
      have hf := confirm_frame s sender i
      exact ownerInv_transport s _ hinv hf.1 hf.2.1
  | opRevoke i =>
      simp only [runOp]
      have hf := revoke_frame s sender i
      exact ownerInv_transport s _ hinv hf.1 hf.2.1
  | opExecute i =>
      simp only [runOp]
      unfold execute_transaction
      split
      · simpa [Res.stateD] using hinv
      · simpa [Res.stateD] using hinv
      · split
        · simpa [Res.stateD] using hinv
        · simpa [Res.stateD] using hinv
        · split
          · simpa [Res.stateD] using hinv
          · simpa [Res.stateD] using hinv
          · split
            · simpa [Res.stateD] using hinv
            · simpa [Res.stateD] using hinv
            · next tx heq =>
                have hinv1 : OwnerInv (setTx s i { tx with executed := true }) :=
                  ownerInv_transport s _ hinv rfl rfl
                dsimp only
                split
                · simpa [Res.stateD] using hinv1
                · simpa [Res.stateD] using hinv
                · next tx1 heq1 =>
                    have h2 := hext (setTx s i { tx with executed := true })
                      tx1.destination tx1.value tx1.data hinv1
                    unfold exec_after_call
                    split
                    · next s2 extLog heq2 =>
                        rw [heq2] at h2
                        simpa [Res.stateD] using h2
                    · next s2 extLog heq2 =>
                        rw [heq2] at h2
                        simp only at h2
                        split
                        · simpa [Res.stateD] using h2
                        · simpa [Res.stateD] using hinv
                        · simp only [Res.stateD]
                          exact ownerInv_transport s2 _ h2 rfl rfl
  | opAddOwner o =>
      simp only [runOp]
      unfold add_owner
      split
      · simpa [Res.stateD] using hinv
      · simpa [Res.stateD] using hinv
      · by_cases h0 : o = 0
        · simpa [h0, Res.stateD] using hinv
        · by_cases hdup : mget s.is_owner o = true
          · simpa [h0, hdup, Res.stateD] using hinv
          · simp only [h0, hdup, if_false, Bool.false_eq_true, Res.stateD]
            exact ownerInv_push s o (by simpa using hdup) hinv
  | opRemoveOwner o =>
      simp only [runOp]
      unfold remove_owner
      split
      · simpa [Res.stateD] using hinv
      · simpa [Res.stateD] using hinv
      · by_cases ho : mget s.is_owner o = true
        · by_cases hc : s.owners.length ≤ s.required_confirmations
          · simpa [ho, hc, Res.stateD] using hinv
          · simp only [ho, hc, Res.stateD, Bool.not_true, if_false]
            simpa [Res.stateD] using ownerInv_remove s o ho hinv
        · simpa [ho, Res.stateD] using hinv
  | opReplaceOwner o n =>
      simp only [runOp]
      unfold replace_owner
      split
      · simpa [Res.stateD] using hinv
      · simpa [Res.stateD] using hinv
      · by_cases h0 : n = 0
        · simpa [h0, Res.stateD] using hinv
        · by_cases hold : mget s.is_owner o = true
          · by_cases hnew : mget s.is_owner n = true
            · simpa [h0, hold, hnew, Res.stateD] using hinv
            · simp only [h0, hold, hnew, if_false, Bool.not_true, Bool.false_eq_true,
                Res.stateD]
              simpa [Res.stateD] using
                ownerInv_replace s o n hold (by simpa using hnew) hinv
          · simpa [h0, hold, Res.stateD] using hinv
  | opChangeReq r =>
      simp only [runOp]
      have hf := change_requirement_frame s sender self_addr r
      exact ownerInv_transport s _ hinv hf.1 hf.2
  | opDeposit v =>
      simpa [runOp, deposit, Res.stateD] using hinv

end Multisig

namespace Multisig

/-- Witness for C7: removing owner 1 from the three-owner wallet keeps
the owner registry invariant. -/
theorem C7_owner_registry_witness :
    OwnerInv ((runOp w3 99 99 extOkInert (.opRemoveOwner 1)).stateD w3) :=
  C7_owner_registry w3 99 99 extOkInert (.opRemoveOwner 1)
    ⟨by decide, ownerMapOk_of_lists w3 (by decide) (by decide)⟩
    (fun w d v p h => h)

end Multisig

namespace Multisig

theorem udec_eq (c : Nat) (h1 : 1 ≤ c) (h2 : c < U256_MOD) : udec c = c - 1 := by
  unfold udec
  have hM : 1 ≤ U256_MOD := by norm_num [U256_MOD]
  have hsplit : c + (U256_MOD - 1) = (c - 1) + U256_MOD := by omega
  rw [hsplit, Nat.add_mod_right]
  exact Nat.mod_eq_of_lt (by omega)

theorem mem_of_getElem?_eq (l : List α) (n : Nat) (a : α) (h : l[n]? = some a) :
    a ∈ l := by
  rcases List.getElem?_eq_some.1 h with ⟨hlt, rfl⟩
  exact List.getElem_mem hlt

theorem txsInv_transport (s s' : MultisigWallet) (hinv : TxsInv s)
    (ht : s'.transactions = s.transactions) : TxsInv s' := by
  intro t hmem
  exact hinv t (ht ▸ hmem)

theorem txsInv_setTx (s : MultisigWallet) (i : Nat) (tx' : Transaction)
    (hinv : TxsInv s) (hnew : TxInv tx') : TxsInv (setTx s i tx') := by
  intro t hmem
  rcases List.mem_or_eq_of_mem_set hmem with h | h
  · exact hinv t h
  · rw [h]
    exact hnew

theorem txInv_confirm (tx : Transaction) (sender : Addr) (hinv : TxInv tx)
    (hs : sender < ADDR_MOD) (hnc : mget tx.confirmations sender = false) :
    TxInv { tx with confirmations := mset tx.confirmations sender true,
                    confirmation_count := uinc tx.confirmation_count } := by
  obtain ⟨hc, hwf⟩ := hinv
  constructor
  · show uinc tx.confirmation_count = countTrue (mset tx.confirmations sender true)
    rw [countTrue_mset_true tx.confirmations sender hnc, hc]
    exact uinc_eq _ (countTrue_lt_u256 tx.confirmations hwf)
  · exact mapWF_mset tx.confirmations sender true hwf hs

theorem txInv_revoke (tx : Transaction) (sender : Addr) (hinv : TxInv tx)
    (hs : sender < ADDR_MOD) (hcf : mget tx.confirmations sender = true) :
    TxInv { tx with confirmations := mset tx.confirmations sender false,
                    confirmation_count := udec tx.confirmation_count } := by
  obtain ⟨hc, hwf⟩ := hinv
  have hstep := countTrue_mset_false tx.confirmations sender hcf
  have hlt := countTrue_lt_u256 tx.confirmations hwf
  constructor
  · show udec tx.confirmation_count = countTrue (mset tx.confirmations sender false)
    rw [hc, udec_eq (countTrue tx.confirmations) (by omega) (by omega)]
    omega
  · exact mapWF_mset tx.confirmations sender false hwf hs

theorem txsInv_confirm_inner (s : MultisigWallet) (sender : Addr) (i : Nat)
    (hinv : TxsInv s) (hs : sender < ADDR_MOD) :
    TxsInv ((confirm_inner s sender i).stateD s) := by
  unfold confirm_inner
  split
  · simpa [Res.stateD] using hinv
  · simpa [Res.stateD] using hinv
  · split
    · simpa [Res.stateD] using hinv
    · simpa [Res.stateD] using hinv
    · next tx heq =>
        split
        · simpa [Res.stateD] using hinv
        · next hnc =>
            simp only [Res.stateD]
            refine txsInv_setTx s i _ hinv ?_
            have htxmem : tx ∈ s.transactions := by
              rcases (get_ref_ok_iff s i tx).1 heq with ⟨_, hsome⟩
              exact mem_of_getElem?_eq _ _ _ hsome
            exact txInv_confirm tx sender (hinv tx htxmem) hs (by simpa using hnc)

theorem txsInv_revoke_op (s : MultisigWallet) (sender : Addr) (i : Nat)
    (hinv : TxsInv s) (hs : sender < ADDR_MOD) :
    TxsInv ((revoke_confirmation s sender i).stateD s) := by
  unfold revoke_confirmation
  split
  · simpa [Res.stateD] using hinv
  · simpa [Res.stateD] using hinv
  · split
    · simpa [Res.stateD] using hinv
    · simpa [Res.stateD] using hinv
    · split
      · simpa [Res.stateD] using hinv
      · simpa [Res.stateD] using hinv
      · next tx heq =>
          split
          · simpa [Res.stateD] using hinv
          · next hcf =>
              simp only [Res.stateD]
              refine txsInv_setTx s i _ hinv ?_
              have htxmem : tx ∈ s.transactions := by
                rcases (get_ref_ok_iff s i tx).1 heq with ⟨_, hsome⟩
                exact mem_of_getElem?_eq _ _ _ hsome
              exact txInv_revoke tx sender (hinv tx htxmem) hs (by simpa using hcf)

theorem txsInv_submit (s : MultisigWallet) (sender dest : Addr) (v : Nat)
    (data : List Nat) (hinv : TxsInv s) (hs : sender < ADDR_MOD) :
    TxsInv ((submit_transaction s sender dest v data).stateD s) := by
  unfold submit_transaction
  split
  · simpa [Res.stateD] using hinv
  · simpa [Res.stateD] using hinv
  · split
    · simpa [Res.stateD] using hinv
    · have hs1 : TxsInv { s with transactions := s.transactions ++
          [{ destination := dest, value := v, data := data, executed := false,
             confirmations := [], confirmation_count := 0 }] } := by
        intro t hmem
        rcases List.mem_append.1 hmem with h | h
        · exact hinv t h
        · rw [List.mem_singleton.1 h]
          exact ⟨rfl, List.nodup_nil, by intro k hk; simp [keysOf] at hk⟩
      have h1 := txsInv_confirm_inner _ sender s.transactions.length hs1 hs
      rcases hc : confirm_inner
          { s with transactions := s.transactions ++
              [{ destination := dest, value := v, data := data, executed := false,
                 confirmations := [], confirmation_count := 0 }] }
          sender s.transactions.length with ⟨val, s2, l2⟩ | ⟨e, s2, l2⟩ | _
      · rw [hc] at h1
        simp only [hc]
        simpa [Res.stateD] using h1
      · rw [hc] at h1
        simp only [hc]
        simpa [Res.stateD] using h1
      · simp [hc, Res.stateD]
        exact txsInv_transport s _ hinv rfl

theorem init_loop_tx_frame (pending : List Addr) (s : MultisigWallet) (log : List Event)
    (dflt : MultisigWallet) (hd : dflt.transactions = s.transactions) :
    ((init_owner_loop s pending log).stateD dflt).transactions = s.transactions := by
  induction pending generalizing s log dflt with
  | nil => simp [init_owner_loop, Res.stateD]
  | cons o rest ih =>
      by_cases h0 : o = 0
      · simp [init_owner_loop, h0, Res.stateD]
      · by_cases hdup : mget s.is_owner o = true
        · simp [init_owner_loop, h0, hdup, Res.stateD]
        · simp only [init_owner_loop, h0, if_false, hdup, Bool.false_eq_true]
          exact ih _ (log ++ [Event.ownerAdded o]) dflt hd

end Multisig

namespace Multisig

/-- C2 counterexample: starting from the threshold-1 three-owner wallet,
owner 1 submits action 0 (auto-confirmed, stored count 1) and the wallet
then removes owner 1; the stored confirmationCount is still 1 while the
number of current owners with a true confirmations entry is 0, refuting
the claimed equality over current owners. -/
theorem C2_counterexample :
    (c2b.transactions.getD 0 dtx).confirmation_count = 1 ∧
    ownersConfirmed c2b 0 = 0 := by
  constructor
  · decide
  · decide

/-- C2 amended: for every action at all times, confirmationCount equals
the number of addresses -- current or former owners -- whose
confirmations entry is true (the count over current owners only holds
while no confirming owner has been removed or replaced); this invariant
is preserved by every public state-changing entry point, with the
external call of execute_transaction assumed to preserve it. -/
theorem C2_count_invariant (s : MultisigWallet) (sender self_addr : Addr)
    (ext : ExtCall) (op : Op) (hinv : TxsInv s) (hs : sender < ADDR_MOD)
    (hext : ∀ w d v p, TxsInv w → TxsInv (ext w d v p).2.1) :
    TxsInv ((runOp s sender self_addr ext op).stateD s) := by
  cases op with
  | opInit ow r =>
      simp only [runOp]
      unfold init_wallet
      by_cases hi : s.initialized = true
      · simpa [hi, Res.stateD] using hinv
      · by_cases he : ow.isEmpty = true
        · simpa [hi, he, Res.stateD] using hinv
        · by_cases hr : r = 0 ∨ r > ow.length
          · simpa [hi, he, hr, Res.stateD] using hinv
          · simp only [hi, he, hr, if_false, Bool.false_eq_true]
            have hframe := init_loop_tx_frame ow s [] s rfl
            rcases hloop : init_owner_loop s ow [] with ⟨v, s2, l2⟩ | ⟨e, s2, l2⟩ | _
            · rw [hloop] at hframe
              simp only [Res.stateD] at hframe ⊢
              exact txsInv_transport s _ hinv hframe
            · rw [hloop] at hframe
              simp only [Res.stateD] at hframe ⊢
              exact txsInv_transport s _ hinv hframe
            · simpa [hloop, Res.stateD] using hinv
  | opSubmit d v data =>
      simp only [runOp]
      rw [void_stateD]
      exact txsInv_submit s sender d v data hinv hs
  | opConfirm i =>
      simp only [runOp]
      unfold confirm_transaction
      split
      · simpa [Res.stateD] using hinv
      · simpa [Res.stateD] using hinv
      · exact txsInv_confirm_inner s sender i hinv hs
  | opRevoke i =>
      simp only [runOp]
      exact txsInv_revoke_op s sender i hinv hs
  | opExecute i =>
      simp only [runOp]
      unfold execute_transaction
      split
      · simpa [Res.stateD] using hinv
      · simpa [Res.stateD] using hinv
      · split
        · simpa [Res.stateD] using hinv
        · simpa [Res.stateD] using hinv
        · split
          · simpa [Res.stateD] using hinv
          · simpa [Res.stateD] using hinv
          · split
            · simpa [Res.stateD] using hinv
            · simpa [Res.stateD] using hinv
            · next tx heq =>
                have htxmem : tx ∈ s.transactions := by
                  rcases (get_ref_ok_iff s i tx).1 heq with ⟨_, hsome⟩
                  exact mem_of_getElem?_eq _ _ _ hsome
                have hinv1 : TxsInv (setTx s i { tx with executed := true }) :=
                  txsInv_setTx s i _ hinv (hinv tx htxmem)
                dsimp only
                split
                · simpa [Res.stateD] using hinv1
                · simpa [Res.stateD] using hinv
                · next tx1 heq1 =>
                    have h2 := hext (setTx s i { tx with executed := true })
                      tx1.destination tx1.value tx1.data hinv1
                    unfold exec_after_call
                    split
                    · next s2 extLog heq2 =>
                        rw [heq2] at h2
                        simpa [Res.stateD] using h2
                    · next s2 extLog heq2 =>
                        rw [heq2] at h2
                        simp only at h2
                        split
                        · simpa [Res.stateD] using h2
                        · simpa [Res.stateD] using hinv
                        · next tx2 heq3 =>
                            have htxmem2 : tx2 ∈ s2.transactions := by
                              rcases (get_ref_ok_iff s2 i tx2).1 heq3 with ⟨_, hsome⟩
                              exact mem_of_getElem?_eq _ _ _ hsome
                            simp only [Res.stateD]
                            exact txsInv_setTx s2 i _ h2 (h2 tx2 htxmem2)
  | opAddOwner o =>
      simp only [runOp]
      unfold add_owner
      repeat' split
      all_goals exact txsInv_transport s _ hinv rfl
  | opRemoveOwner o =>
      simp only [runOp]
      unfold remove_owner
      repeat' split
      all_goals exact txsInv_transport s _ hinv rfl
  | opReplaceOwner o n =>
      simp only [runOp]
      unfold replace_owner
      repeat' split
      all_goals exact txsInv_transport s _ hinv rfl
  | opChangeReq r =>
      simp only [runOp]
      unfold change_requirement
      repeat' split
      all_goals exact txsInv_transport s _ hinv rfl
  | opDeposit v =>
      simp only [runOp]
      exact txsInv_transport s _ hinv rfl

/-- Witness for C2: owner 2 confirming the singly-confirmed action 0
keeps the count equal to the number of true confirmation entries. -/
theorem C2_count_invariant_witness :
    TxsInv ((runOp w3u 2 99 extOkInert (.opConfirm 0)).stateD w3u) :=
  C2_count_invariant w3u 2 99 extOkInert (.opConfirm 0)
    (fun t ht => by
      have hteq : t = txB := by simpa [w3u] using ht
      subst hteq
      exact ⟨by decide, by decide, by decide⟩)
    (by decide) (fun w d v p h => h)

end Multisig

namespace Multisig

/-- C8: a public entry point that returns an error leaves the contract
state unchanged and emits nothing, because the Stylus router reverts an
external call whose method returns Err (publicCall); in particular,
confirming an action the caller has already confirmed always fails with
the already-confirmed error on the second call and leaves the state --
including every confirmationCount -- literally unchanged even before any
revert, so the execute-failure reset remains the only error path whose
inner execution mutates state. -/
theorem C8_error_frame :
    (∀ (s : MultisigWallet) (sender self_addr : Addr) (ext : ExtCall) (op : Op)
        (e : Err) (s1 : MultisigWallet) (log1 : List Event),
      publicCall (runOp s sender self_addr ext op) s = .err e s1 log1 →
      s1 = s ∧ log1 = []) ∧
    (∀ (s : MultisigWallet) (sender : Addr) (tx_id : Nat) (s1 : MultisigWallet)
        (log1 : List Event),
      confirm_transaction s sender tx_id = .ok () s1 log1 →
      confirm_transaction s1 sender tx_id = .err .alreadyConfirmed s1 []) := by
  constructor
  · intro s sender self_addr ext op e s1 log1 hpc
    rcases hr : runOp s sender self_addr ext op with ⟨v, s2, l2⟩ | ⟨e2, s2, l2⟩ | _
    · rw [hr] at hpc
      simp [publicCall] at hpc
    · rw [hr] at hpc
      simp [publicCall] at hpc
      exact ⟨hpc.2.1.symm, hpc.2.2⟩
    · rw [hr] at hpc
      simp [publicCall] at hpc
  · intro s sender tx_id s1 log1 hok
    by_cases hown : mget s.is_owner sender = true
    · rcases htx : get_transaction_ref s tx_id with tx | e2 | _
      · by_cases hex : tx.executed = true
        · simp [confirm_transaction, require_owner, hown, confirm_inner,
            require_not_executed, htx, hex] at hok
        · by_cases hconf : mget tx.confirmations sender = true
          · simp [confirm_transaction, require_owner, hown, confirm_inner,
              require_not_executed, htx, hex, hconf] at hok
          · simp [confirm_transaction, require_owner, hown, confirm_inner,
              require_not_executed, htx, hex, hconf] at hok
            obtain ⟨hs1, _⟩ := hok
            obtain ⟨hu, hsome⟩ := (get_ref_ok_iff s tx_id tx).1 htx
            have hlt : tx_id < s.transactions.length := by
              rcases List.getElem?_eq_some.1 hsome with ⟨hl, _⟩
              exact hl
            subst hs1
            have hmid := setTx_get s tx_id
              { destination := tx.destination, value := tx.value, data := tx.data,
                executed := false, confirmations := mset tx.confirmations sender true,
                confirmation_count := uinc tx.confirmation_count } hu hlt
            simp only [setTx] at hmid
            simp [confirm_transaction, require_owner, setTx, hown, confirm_inner,
              require_not_executed, hmid, mget_mset_self]
      · simp [confirm_transaction, require_owner, hown, confirm_inner,
          require_not_executed, htx] at hok
      · simp [confirm_transaction, require_owner, hown, confirm_inner,
          require_not_executed, htx] at hok
    · simp [confirm_transaction, require_owner, hown] at hok

end Multisig

namespace Multisig

/-- Witness for C8: after owner 2 confirms action 0, a second identical
confirmation fails with the already-confirmed error and changes nothing. -/
theorem C8_error_frame_witness :
    confirm_transaction ((confirm_transaction w3u 2 0).stateD .fresh) 2 0 =
      .err .alreadyConfirmed ((confirm_transaction w3u 2 0).stateD .fresh) [] :=
  C8_error_frame.2 w3u 2 0 ((confirm_transaction w3u 2 0).stateD .fresh)
    [Event.transactionConfirmed 0 2] (by decide)

end Multisig
